import Mathlib

set_option maxRecDepth 100000

/-!
Shallow embedding of scripts/dump_user.py from python-idb.

Byte buffers are modelled as `List Nat`, each element standing for one byte
(Python guarantees byte values lie in 0..255; theorems that depend on this
carry it as a hypothesis). Python exceptions are modelled with `Except`.
-/

/-- Errors that the decoding pipeline in dump_user.py can signal.
`length` models the ValueError raised for a wrongly sized blob,
`versionUnsupported` the NotImplementedError for a version-0 blob,
`encoding` the UnicodeDecodeError from `.decode(utf-8)`, and
`overflow` the OverflowError that `int.to_bytes` would raise. -/
inductive ParseError where
  | length
  | versionUnsupported
  | encoding
  | overflow
deriving DecidableEq

/-- Model of a Python `datetime.datetime` value as produced by
`datetime.datetime.utcfromtimestamp` on a nonnegative integer. -/
structure PyDatetime where
  year : Nat
  month : Nat
  day : Nat
  hour : Nat
  minute : Nat
  second : Nat
deriving DecidableEq

/-- The dictionary returned by `parse_user_data` in the source:
keys ts1, ts2, id, name. -/
structure UserRecord where
  ts1 : PyDatetime
  ts2 : PyDatetime
  id : String
  name : String
deriving DecidableEq

instance : DecidableEq (Except ParseError UserRecord) := fun x y =>
  match x, y with
  | .ok a, .ok b =>
    if h : a = b then isTrue (by rw [h])
    else isFalse (fun hc => h (by cases hc; rfl))
  | .error a, .error b =>
    if h : a = b then isTrue (by rw [h])
    else isFalse (fun hc => h (by cases hc; rfl))
  | .ok _, .error _ => isFalse (fun hc => Except.noConfusion hc)
  | .error _, .ok _ => isFalse (fun hc => Except.noConfusion hc)

/-- Byte of a buffer at a given index. Out-of-range reads yield 0; the source
only indexes buffers at offsets it has already bounds-checked. -/
def byteAt : List Nat → Nat → Nat
  | [], _ => 0
  | b :: _, 0 => b
  | _ :: t, i + 1 => byteAt t i

/-- Model of `struct.unpack_from with format <H` at an offset: the unsigned
16-bit little-endian integer formed by two consecutive bytes. -/
def u16le (buf : List Nat) (off : Nat) : Nat :=
  byteAt buf off + 256 * byteAt buf (off + 1)

/-- Model of one `I` item of `struct.unpack_from with format <III`: the
unsigned 32-bit little-endian integer formed by four consecutive bytes. -/
def u32le (buf : List Nat) (off : Nat) : Nat :=
  byteAt buf off + 256 * byteAt buf (off + 1) +
    65536 * byteAt buf (off + 2) + 16777216 * byteAt buf (off + 3)

/-- Model of `int.from_bytes(bytes, little)`: little-endian interpretation of
a byte list; a short list simply contributes fewer powers of 256, which is the
zero-extension behaviour of the Python builtin. -/
def fromBytesLE : List Nat → Nat
  | [] => 0
  | b :: t => b + 256 * fromBytesLE t

/-- Big-endian byte serialization of a natural number into `k` bytes, most
significant byte first; models the byte layout of `int.to_bytes(k, big)`. -/
def beBytes : Nat → Nat → List Nat
  | 0, _ => []
  | k + 1, n => (n / 256 ^ k % 256) :: beBytes k n

/-- Model of `int.to_bytes(k, big)`: the Python builtin raises OverflowError
when the integer does not fit in `k` bytes, and otherwise returns exactly `k`
bytes, big-endian. -/
def pyToBytesBE (k : Nat) (n : Nat) : Option (List Nat) :=
  if 256 ^ k ≤ n then none else some (beBytes k n)

/-- The fixed 1024-bit Hex-Rays public-key modulus constant from the source. -/
def HEXRAYS_PUBKEY : Nat :=
  0x93AF7A8E3A6EB93D1B4D1FB7EC29299D2BC8F3CE5F84BFE88E47DDBDD5550C3CE3D2B16A2E2FBD0FBD919E8038BB05752EC92DD1498CB283AA087A93184F1DD9DD5D5DF7857322DFCD70890F814B58448071BBABB0FC8A7868B62EB29CC2664C8FE61DFBC5DB0EE8BF6ECF0B65250514576C4384582211896E5478F95C42FDED

/-- Model of `decrypt` from the source: interpret the first 0x80 bytes as a
little-endian integer, raise it to the power 0x13 modulo HEXRAYS_PUBKEY, and
serialize the result to 0x80 big-endian bytes. -/
def decrypt (buf : List Nat) : Option (List Nat) :=
  pyToBytesBE 0x80 (fromBytesLE (buf.take 0x80) ^ 0x13 % HEXRAYS_PUBKEY)

/-- First index at which four consecutive zero bytes start in the buffer,
scanning from the left; `none` when no such run exists. This is the search
performed by the Python expression `buf.find(four zero bytes)`. -/
def findZeroRun (l : List Nat) : Option Nat :=
  match l with
  | [] => none
  | _ :: t =>
    if l.take 4 = [0, 0, 0, 0] then some 0
    else (findZeroRun t).map (· + 1)

/-- Model of the Python integer returned by `buf.find(four zero bytes)`:
the first index of the run, or -1 when the run does not occur. -/
def pyFindZeroRun (buf : List Nat) : Int :=
  match findZeroRun buf with
  | none => -1
  | some i => (i : Int)

/-- Model of `is_encrypted` from the source:
`return buf.find(four zero bytes) >= 0x80`. -/
def is_encrypted (buf : List Nat) : Bool :=
  decide (0x80 ≤ pyFindZeroRun buf)

/-- Four consecutive zero bytes start at index `i` of the buffer. -/
def zeroRunAt (buf : List Nat) (i : Nat) : Prop :=
  (buf.drop i).take 4 = [0, 0, 0, 0]

/-- First index `i ≥ start` with `buf[i] = b`, the search performed by the
Python expression `buf.find(byte, start)` before its -1 encoding. -/
def findByteAux (b : Nat) : List Nat → Option Nat
  | [] => none
  | x :: t => if x = b then some 0 else (findByteAux b t).map (· + 1)

/-- Model of the Python integer returned by `buf.find(byte, start)`: the
first absolute index at or after `start` holding `b`, or -1 when absent. -/
def pyFindByteFrom (buf : List Nat) (b : Nat) (start : Nat) : Int :=
  match findByteAux b (buf.drop start) with
  | none => -1
  | some i => ((start + i : Nat) : Int)

/-- Model of the Python slice `buf[a:stop]` where `stop` may be negative: a
negative stop counts from the end of the buffer (clamped at 0). -/
def pySliceTo (buf : List Nat) (a : Nat) (stop : Int) : List Nat :=
  let b : Nat := if stop < 0 then (stop + buf.length).toNat else stop.toNat
  (buf.drop a).take (b - a)

/-- Model of the Python comparison `version == 0` in the source. There,
`version` is the one-element tuple returned by `struct.unpack_from`, and in
Python a tuple never compares equal to an integer, so the comparison is
always False whatever the unpacked value is. -/
def pyTupleEqInt (_ : List Nat) (_ : Nat) : Bool := false

/-- Uppercase hexadecimal digit character for a value below 16. -/
def hexDigit (n : Nat) : Char :=
  if n < 10 then Char.ofNat (48 + n) else Char.ofNat (55 + n)

/-- Model of the Python format item `%02X` applied to a byte value: two
uppercase hexadecimal digits (values produced by unpacking format `6B` are
always below 256, so the width is exactly two). -/
def pyFmt02X (n : Nat) : String :=
  ⟨[hexDigit (n / 16 % 16), hexDigit (n % 16)]⟩

/-- Two-digit uppercase hexadecimal rendering of a byte value, the shape the
spec prescribes for each identifier byte. -/
def upperHexPair (n : Nat) : String :=
  ⟨[hexDigit (n / 16), hexDigit (n % 16)]⟩

/-- Strict UTF-8 decoding of a byte list into characters, following the
byte-pattern table of RFC 3629 that the strict mode of the Python
`bytes.decode(utf-8)` implements: rejects stray continuation bytes, overlong
encodings, surrogate code points and code points above 0x10FFFF. The first
argument is fuel, always instantiated with the length of the list. -/
def decodeUtf8Aux : Nat → List Nat → Option (List Char)
  | _, [] => some []
  | 0, _ :: _ => none
  | fuel + 1, b :: rest =>
    if b < 0x80 then
      (decodeUtf8Aux fuel rest).map (fun cs => Char.ofNat b :: cs)
    else if b < 0xC2 then none
    else if b < 0xE0 then
      match rest with
      | c1 :: rest1 =>
        if 0x80 ≤ c1 ∧ c1 < 0xC0 then
          (decodeUtf8Aux fuel rest1).map
            (fun cs => Char.ofNat ((b - 0xC0) * 64 + (c1 - 0x80)) :: cs)
        else none
      | [] => none
    else if b < 0xF0 then
      match rest with
      | c1 :: c2 :: rest2 =>
        let lo1 : Nat := if b = 0xE0 then 0xA0 else 0x80
        let hi1 : Nat := if b = 0xED then 0xA0 else 0xC0
        if (lo1 ≤ c1 ∧ c1 < hi1) ∧ (0x80 ≤ c2 ∧ c2 < 0xC0) then
          (decodeUtf8Aux fuel rest2).map
            (fun cs =>
              Char.ofNat ((b - 0xE0) * 4096 + (c1 - 0x80) * 64 + (c2 - 0x80)) :: cs)
        else none
      | _ => none
    else if b < 0xF5 then
      match rest with
      | c1 :: c2 :: c3 :: rest3 =>
        let lo1 : Nat := if b = 0xF0 then 0x90 else 0x80
        let hi1 : Nat := if b = 0xF4 then 0x90 else 0xC0
        if (lo1 ≤ c1 ∧ c1 < hi1) ∧ (0x80 ≤ c2 ∧ c2 < 0xC0) ∧
            (0x80 ≤ c3 ∧ c3 < 0xC0) then
          (decodeUtf8Aux fuel rest3).map
            (fun cs =>
              Char.ofNat ((b - 0xF0) * 262144 + (c1 - 0x80) * 4096 +
                (c2 - 0x80) * 64 + (c3 - 0x80)) :: cs)
        else none
      | _ => none
    else none

/-- Model of strict `bytes.decode(utf-8)`: `none` models the
UnicodeDecodeError raised on invalid input. -/
def decodeUtf8 (l : List Nat) : Option String :=
  (decodeUtf8Aux l.length l).map (fun cs => ⟨cs⟩)

/-- Civil date (year, month, day) of the day `z` days after 1970-01-01,
in the proleptic Gregorian calendar. -/
def civilFromDays (z : Nat) : Nat × Nat × Nat :=
  let zs := z + 719468
  let era := zs / 146097
  let doe := zs % 146097
  let yoe := (doe - doe / 1460 + doe / 36524 - doe / 146096) / 365
  let y := yoe + era * 400
  let doy := doe - (365 * yoe + yoe / 4 - yoe / 100)
  let mp := (5 * doy + 2) / 153
  let d := doy - (153 * mp + 2) / 5 + 1
  let m := if mp < 10 then mp + 3 else mp - 9
  (if m ≤ 2 then y + 1 else y, m, d)

/-- Model of `datetime.datetime.utcfromtimestamp` on a nonnegative integer
number of seconds: the UTC calendar instant that many seconds after
1970-01-01T00:00:00. -/
def utcfromtimestamp (ts : Nat) : PyDatetime :=
  let days := ts / 86400
  let sod := ts % 86400
  let c := civilFromDays days
  ⟨c.1, c.2.1, c.2.2, sod / 3600, sod % 3600 / 60, sod % 60⟩

/-- Model of `parse_user_data` from the source, line by line: the length
check, the (dead) version check, the two timestamps unpacked at 0x11 and
0x19, the id formatted from the six bytes at 0x1D, and the name sliced from
0x23 up to the result of `buf.find(zero byte, 0x23)` and UTF-8 decoded. -/
def parse_user_data (buf : List Nat) : Except ParseError UserRecord :=
  if buf.length ≠ 0x80 then .error .length
  else
    let version := [u16le buf 0x3]
    if pyTupleEqInt version 0 then .error .versionUnsupported
    else
      let ts1 := u32le buf 0x11
      let ts2 := u32le buf 0x19
      let id := pyFmt02X (byteAt buf 0x1D) ++ "-" ++ pyFmt02X (byteAt buf 0x1E) ++
        pyFmt02X (byteAt buf 0x1F) ++ "-" ++ pyFmt02X (byteAt buf 0x20) ++
        pyFmt02X (byteAt buf 0x21) ++ "-" ++ pyFmt02X (byteAt buf 0x22)
      match decodeUtf8 (pySliceTo buf 0x23 (pyFindByteFrom buf 0 0x23)) with
      | none => .error .encoding
      | some name =>
        .ok ⟨utcfromtimestamp ts1, utcfromtimestamp ts2, id, name⟩

/-- Model of `get_userdata` from the source, after the netnode fetch: decrypt
when the blob is classified as encrypted, otherwise truncate it to its first
0x80 bytes, then parse. -/
def get_userdata (userdata : List Nat) : Except ParseError UserRecord :=
  if is_encrypted userdata then
    match decrypt userdata with
    | some plain => parse_user_data plain
    | none => .error .overflow
  else
    parse_user_data (userdata.take 0x80)

/-- A 128-byte buffer whose name region 0x23..0x7F holds no zero byte:
35 zero bytes followed by 93 bytes 0x41. -/
def noTerminatorBuf : List Nat :=
  List.replicate 0x23 0 ++ List.replicate 0x5D 0x41

/-- A 129-byte blob classified as plaintext (its first four bytes are zero)
whose name region starts with the lone byte 0xFF, which is not valid UTF-8. -/
def badUtf8Blob : List Nat :=
  List.replicate 0x23 0 ++ 0xFF :: List.replicate 0x5D 0

/-- A 128-byte buffer that is zero except for the six identifier bytes
0xAB, 0xCD, 0xEF, 0x01, 0x23, 0x45 at offsets 0x1D through 0x22. -/
def idSampleBuf : List Nat :=
  List.replicate 0x1D 0 ++ [0xAB, 0xCD, 0xEF, 0x01, 0x23, 0x45] ++
    List.replicate 0x5D 0

/-- The record that `parse_user_data` produces on `idSampleBuf`. -/
def idSampleRec : UserRecord :=
  ⟨utcfromtimestamp 0, utcfromtimestamp 0, "AB-CDEF-0123-45", ""⟩

/-- The record that `parse_user_data` produces on the all-zero buffer. -/
def zeroRec : UserRecord :=
  ⟨utcfromtimestamp 0, utcfromtimestamp 0, "00-0000-0000-00", ""⟩

lemma beBytes_length (k n : Nat) : (beBytes k n).length = k := by
  induction k with
  | zero => rfl
  | succ k ih => simp [beBytes, ih]

lemma hexrays_pubkey_pos : 0 < HEXRAYS_PUBKEY := by decide

lemma hexrays_pubkey_lt : HEXRAYS_PUBKEY < 256 ^ 0x80 := by decide

lemma decrypt_eq_some (buf : List Nat) :
    decrypt buf =
      some (beBytes 0x80 (fromBytesLE (buf.take 0x80) ^ 0x13 % HEXRAYS_PUBKEY)) := by
  unfold decrypt pyToBytesBE
  rw [if_neg]
  exact Nat.not_le.mpr
    (lt_trans (Nat.mod_lt _ hexrays_pubkey_pos) hexrays_pubkey_lt)

lemma parse_wrong_length {buf : List Nat} (h : buf.length ≠ 0x80) :
    parse_user_data buf = .error .length := by
  simp only [parse_user_data, if_pos h]

lemma parse_ne_error_length {buf : List Nat} (h : buf.length = 0x80) :
    parse_user_data buf ≠ .error .length := by
  unfold parse_user_data
  rw [if_neg (by simp [h])]
  simp only [pyTupleEqInt, Bool.false_eq_true, if_false]
  split <;> simp

/-- C7: for every input buffer whose length is not exactly 128 bytes,
parse_user_data fails with the length error and returns no record. -/
theorem C7_length_check (buf : List Nat) (h : buf.length ≠ 0x80) :
    parse_user_data buf = .error .length :=
  parse_wrong_length h

theorem C7_length_check_witness :
    ([] : List Nat).length ≠ 0x80 ∧
      parse_user_data [] = .error .length :=
  ⟨by decide, C7_length_check [] (by decide)⟩

/-- C8: for every buffer of at least 128 bytes, decrypt depends only on the
first 128 bytes: decrypt buf equals decrypt of its 128-byte prefix. -/
theorem C8_decrypt_take_128 (buf : List Nat) (_h : 0x80 ≤ buf.length) :
    decrypt buf = decrypt (buf.take 0x80) := by
  simp [decrypt, List.take_take]

theorem C8_decrypt_take_128_witness :
    0x80 ≤ (List.replicate 0x82 2).length ∧
      decrypt (List.replicate 0x82 2) = decrypt ((List.replicate 0x82 2).take 0x80) :=
  ⟨by decide, C8_decrypt_take_128 (List.replicate 0x82 2) (by decide)⟩

/-- C9: decrypt is total over buffers of every length, and its output always
has exactly 128 bytes, because the modular power is below the modulus, which
itself fits in 128 bytes, so the big-endian serialization never overflows. -/
theorem C9_decrypt_total (buf : List Nat) :
    ∃ l, decrypt buf = some l ∧ l.length = 0x80 :=
  ⟨_, decrypt_eq_some buf, beBytes_length _ _⟩

/-- C3: for every buffer of at least 128 bytes, decrypt returns exactly the
big-endian 128-byte serialization of the little-endian interpretation of its
first 128 bytes raised to the power 0x13 modulo HEXRAYS_PUBKEY, and that
serialization has exactly 128 bytes. -/
theorem C3_decrypt_formula (buf : List Nat) (_h : 0x80 ≤ buf.length) :
    decrypt buf =
      some (beBytes 0x80 (fromBytesLE (buf.take 0x80) ^ 0x13 % HEXRAYS_PUBKEY)) ∧
    (beBytes 0x80 (fromBytesLE (buf.take 0x80) ^ 0x13 % HEXRAYS_PUBKEY)).length = 0x80 :=
  ⟨decrypt_eq_some buf, beBytes_length _ _⟩

theorem C3_decrypt_formula_witness :
    0x80 ≤ (List.replicate 0x80 1).length ∧
      (decrypt (List.replicate 0x80 1) =
        some (beBytes 0x80
          (fromBytesLE ((List.replicate 0x80 1).take 0x80) ^ 0x13 % HEXRAYS_PUBKEY)) ∧
      (beBytes 0x80
        (fromBytesLE ((List.replicate 0x80 1).take 0x80) ^ 0x13 % HEXRAYS_PUBKEY)).length
        = 0x80) :=
  ⟨by decide, C3_decrypt_formula (List.replicate 0x80 1) (by decide)⟩

/-- C1: the claim says a version field of 0 at offset 0x03 raises a
VersionUnsupported error, but the source compares the unpacked one-element
tuple against the integer 0, which is always False in Python, so the all-zero
128-byte buffer (version field 0) parses successfully instead. -/
theorem C1_version_zero_parses_ok :
    parse_user_data (List.replicate 0x80 0) = .ok zeroRec := by decide

lemma zeroRunAt_cons_succ (b : Nat) (t : List Nat) (j : Nat) :
    zeroRunAt (b :: t) (j + 1) ↔ zeroRunAt t j := Iff.rfl

lemma findZeroRun_cons (b : Nat) (t : List Nat) :
    findZeroRun (b :: t) =
      if (b :: t).take 4 = [0, 0, 0, 0] then some 0
      else (findZeroRun t).map (· + 1) := rfl

lemma findZeroRun_eq_some_iff (l : List Nat) (i : Nat) :
    findZeroRun l = some i ↔ zeroRunAt l i ∧ ∀ j, j < i → ¬ zeroRunAt l j := by
  induction l generalizing i with
  | nil =>
    constructor
    · intro h; exact absurd h (by simp [findZeroRun])
    · rintro ⟨h, -⟩; exact absurd h (by simp [zeroRunAt])
  | cons b t ih =>
    by_cases h : (b :: t).take 4 = [0, 0, 0, 0]
    · rw [findZeroRun_cons, if_pos h]
      have h0 : zeroRunAt (b :: t) 0 := h
      cases i with
      | zero =>
        simp only [Option.some.injEq]
        exact ⟨fun _ => ⟨h0, fun j hj => absurd hj (Nat.not_lt_zero j)⟩, fun _ => trivial⟩
      | succ k =>
        constructor
        · intro hc; exact absurd (Option.some.inj hc) (by omega)
        · rintro ⟨-, hmin⟩; exact absurd h0 (hmin 0 (Nat.succ_pos k))
    · rw [findZeroRun_cons, if_neg h]
      have h0 : ¬ zeroRunAt (b :: t) 0 := h
      cases i with
      | zero =>
        constructor
        · intro hc
          rcases Option.map_eq_some'.mp hc with ⟨a, -, ha⟩
          exact absurd ha (by omega)
        · rintro ⟨hr, -⟩; exact absurd hr h0
      | succ k =>
        constructor
        · intro hc
          rcases Option.map_eq_some'.mp hc with ⟨a, hfa, ha⟩
          have hfk : findZeroRun t = some k := by
            rwa [show a = k by omega] at hfa
          rcases (ih k).mp hfk with ⟨hrun, hmin⟩
          refine ⟨(zeroRunAt_cons_succ b t k).mpr hrun, ?_⟩
          intro j hj
          cases j with
          | zero => exact h0
          | succ j' =>
            rw [zeroRunAt_cons_succ]
            exact hmin j' (by omega)
        · rintro ⟨hrun, hmin⟩
          have hrt : zeroRunAt t k := (zeroRunAt_cons_succ b t k).mp hrun
          have hmt : ∀ j, j < k → ¬ zeroRunAt t j := by
            intro j hj hc
            exact hmin (j + 1) (by omega) ((zeroRunAt_cons_succ b t j).mpr hc)
          rw [(ih k).mpr ⟨hrt, hmt⟩]
          rfl

lemma findZeroRun_eq_none_iff (l : List Nat) :
    findZeroRun l = none ↔ ∀ i, ¬ zeroRunAt l i := by
  induction l with
  | nil =>
    constructor
    · rintro - i hc; simp [zeroRunAt] at hc
    · rintro -; rfl
  | cons b t ih =>
    rw [findZeroRun_cons]
    by_cases h : (b :: t).take 4 = [0, 0, 0, 0]
    · rw [if_pos h]
      constructor
      · intro hc; exact Option.noConfusion hc
      · intro hall; exact absurd h (hall 0)
    · rw [if_neg h]
      constructor
      · intro hc i hrun
        cases i with
        | zero => exact h hrun
        | succ i' =>
          exact (ih.mp (Option.map_eq_none'.mp hc)) i'
            ((zeroRunAt_cons_succ b t i').mp hrun)
      · intro hall
        rw [Option.map_eq_none']
        exact ih.mpr (fun i hc => hall (i + 1) ((zeroRunAt_cons_succ b t i).mpr hc))

/-- C4: is_encrypted is true exactly when the buffer has a run of four
consecutive zero bytes whose earliest occurrence starts at index at least
0x80, and it is false whenever no such run exists anywhere in the buffer. -/
theorem C4_is_encrypted_iff (buf : List Nat) :
    (is_encrypted buf = true ↔
      ∃ i, 0x80 ≤ i ∧ zeroRunAt buf i ∧ ∀ j, j < i → ¬ zeroRunAt buf j) ∧
    ((∀ i, ¬ zeroRunAt buf i) → is_encrypted buf = false) := by
  constructor
  · unfold is_encrypted pyFindZeroRun
    rcases hfind : findZeroRun buf with - | i
    · simp only [decide_eq_true_eq]
      constructor
      · intro hc; exact absurd hc (by omega)
      · rintro ⟨i, -, hrun, hmin⟩
        have : findZeroRun buf = some i := (findZeroRun_eq_some_iff buf i).mpr ⟨hrun, hmin⟩
        rw [hfind] at this
        exact Option.noConfusion this
    · simp only [decide_eq_true_eq]
      rcases (findZeroRun_eq_some_iff buf i).mp hfind with ⟨hrun, hmin⟩
      constructor
      · intro hge
        exact ⟨i, by exact_mod_cast hge, hrun, hmin⟩
      · rintro ⟨j, hge, hrunj, hminj⟩
        have : findZeroRun buf = some j := (findZeroRun_eq_some_iff buf j).mpr ⟨hrunj, hminj⟩
        rw [hfind] at this
        have hij : i = j := Option.some.inj this
        rw [hij]
        exact_mod_cast hge
  · intro hnone
    unfold is_encrypted pyFindZeroRun
    rw [(findZeroRun_eq_none_iff buf).mpr hnone]
    rfl

theorem C4_is_encrypted_iff_witness :
    ((is_encrypted [] = true ↔
      ∃ i, 0x80 ≤ i ∧ zeroRunAt [] i ∧ ∀ j, j < i → ¬ zeroRunAt [] j) ∧
    ((∀ i, ¬ zeroRunAt [] i) → is_encrypted [] = false)) :=
  C4_is_encrypted_iff []

/-- C2: the claim says that a buffer with no NUL byte from 0x23 onward raises
a MalformedName error, but the source feeds the -1 returned by find straight
into the slice end, so the slice keeps bytes 0x23..0x7E, drops the final byte
and parses successfully into a record with a 92-character name. -/
theorem C2_missing_terminator_parses_ok :
    parse_user_data noTerminatorBuf =
      .ok ⟨utcfromtimestamp 0, utcfromtimestamp 0, "00-0000-0000-00",
        ⟨List.replicate 0x5C (Char.ofNat 0x41)⟩⟩ := by decide

lemma byteAt_lt {buf : List Nat} (hb : ∀ b ∈ buf, b < 256) :
    ∀ i, byteAt buf i < 256 := by
  induction buf with
  | nil =>
    intro i
    have h0 : byteAt [] i = 0 := by cases i <;> rfl
    rw [h0]; omega
  | cons b t ih =>
    intro i
    cases i with
    | zero => exact hb b (List.mem_cons_self b t)
    | succ j => exact ih (fun x hx => hb x (List.mem_cons_of_mem b hx)) j

lemma pyFmt02X_eq_upperHexPair {n : Nat} (h : n < 256) :
    pyFmt02X n = upperHexPair n := by
  unfold pyFmt02X upperHexPair
  have h16 : n / 16 < 16 := by omega
  rw [Nat.mod_eq_of_lt h16]

lemma parse_ok_inv {buf : List Nat} {r : UserRecord}
    (h : parse_user_data buf = .ok r) :
    buf.length = 0x80 ∧
    ∃ name, decodeUtf8 (pySliceTo buf 0x23 (pyFindByteFrom buf 0 0x23)) = some name ∧
      r = ⟨utcfromtimestamp (u32le buf 0x11), utcfromtimestamp (u32le buf 0x19),
        pyFmt02X (byteAt buf 0x1D) ++ "-" ++ pyFmt02X (byteAt buf 0x1E) ++
          pyFmt02X (byteAt buf 0x1F) ++ "-" ++ pyFmt02X (byteAt buf 0x20) ++
          pyFmt02X (byteAt buf 0x21) ++ "-" ++ pyFmt02X (byteAt buf 0x22), name⟩ := by
  unfold parse_user_data at h
  by_cases hl : buf.length ≠ 0x80
  · rw [if_pos hl] at h
    exact absurd h (by simp)
  · rw [if_neg hl] at h
    simp only [pyTupleEqInt, Bool.false_eq_true, if_false] at h
    refine ⟨by omega, ?_⟩
    rcases hd : decodeUtf8 (pySliceTo buf 0x23 (pyFindByteFrom buf 0 0x23)) with - | name
    · rw [hd] at h
      exact absurd h (by simp)
    · rw [hd] at h
      exact ⟨name, rfl, (Except.ok.inj h).symm⟩

/-- C5: for every successfully decoded plaintext buffer, the id field is the
six raw bytes at offsets 0x1D through 0x22 rendered as uppercase two-digit
hexadecimal pairs joined in the pattern b0-b1b2-b3b4-b5. -/
theorem C5_license_id_format (buf : List Nat) (r : UserRecord)
    (hb : ∀ b ∈ buf, b < 256) (h : parse_user_data buf = .ok r) :
    r.id = upperHexPair (byteAt buf 0x1D) ++ "-" ++ upperHexPair (byteAt buf 0x1E) ++
      upperHexPair (byteAt buf 0x1F) ++ "-" ++ upperHexPair (byteAt buf 0x20) ++
      upperHexPair (byteAt buf 0x21) ++ "-" ++ upperHexPair (byteAt buf 0x22) := by
  rcases parse_ok_inv h with ⟨-, name, -, rfl⟩
  simp only [pyFmt02X_eq_upperHexPair (byteAt_lt hb 0x1D),
    pyFmt02X_eq_upperHexPair (byteAt_lt hb 0x1E),
    pyFmt02X_eq_upperHexPair (byteAt_lt hb 0x1F),
    pyFmt02X_eq_upperHexPair (byteAt_lt hb 0x20),
    pyFmt02X_eq_upperHexPair (byteAt_lt hb 0x21),
    pyFmt02X_eq_upperHexPair (byteAt_lt hb 0x22)]

theorem C5_license_id_format_witness :
    (∀ b ∈ idSampleBuf, b < 256) ∧
      parse_user_data idSampleBuf = .ok idSampleRec ∧
      idSampleRec.id = "AB-CDEF-0123-45" :=
  ⟨by decide, by decide,
    (C5_license_id_format idSampleBuf idSampleRec (by decide) (by decide)).trans
      (by decide)⟩

/-- C6: for every successfully decoded plaintext buffer, ts1 comes from the
unsigned 32-bit little-endian integer at offset 0x11 and ts2 from the one at
offset 0x19 (the four bytes at 0x15 are skipped), both interpreted with
utcfromtimestamp, and the raw value 0 decodes to the UTC instant
1970-01-01T00:00:00 rather than to a null or absent value. -/
theorem C6_timestamp_fields (buf : List Nat) (r : UserRecord)
    (h : parse_user_data buf = .ok r) :
    r.ts1 = utcfromtimestamp (u32le buf 0x11) ∧
    r.ts2 = utcfromtimestamp (u32le buf 0x19) ∧
    utcfromtimestamp 0 = ⟨1970, 1, 1, 0, 0, 0⟩ := by
  rcases parse_ok_inv h with ⟨-, name, -, rfl⟩
  exact ⟨rfl, rfl, by decide⟩

theorem C6_timestamp_fields_witness :
    parse_user_data (List.replicate 0x80 0) = .ok zeroRec ∧
      (zeroRec.ts1 = utcfromtimestamp (u32le (List.replicate 0x80 0) 0x11) ∧
       zeroRec.ts2 = utcfromtimestamp (u32le (List.replicate 0x80 0) 0x19) ∧
       utcfromtimestamp 0 = ⟨1970, 1, 1, 0, 0, 0⟩) :=
  ⟨by decide, C6_timestamp_fields (List.replicate 0x80 0) zeroRec (by decide)⟩

/-- C10 counterexample: a 129-byte blob classified as plaintext whose parse
fails with the encoding error, so a plaintext blob longer than 128 bytes does
not always decode successfully as the claim states. -/
theorem C10_counterexample :
    0x80 < badUtf8Blob.length ∧ is_encrypted badUtf8Blob = false ∧
      get_userdata badUtf8Blob = .error .encoding := by decide

/-- C10 amended: when the blob is classified as plaintext it is silently
truncated to its first 128 bytes before decoding, so the decoder raises its
length error exactly when the blob is shorter than 128 bytes; a longer
plaintext blob always passes the length check (though it may still fail
later, for example on UTF-8 decoding). -/
theorem C10_truncation_iff_length_error (u : List Nat)
    (h : is_encrypted u = false) :
    (get_userdata u = .error .length ↔ u.length < 0x80) := by
  unfold get_userdata
  rw [h]
  simp only [Bool.false_eq_true, if_false]
  constructor
  · intro hp
    by_contra hlen
    have hge : 0x80 ≤ u.length := by omega
    have htake : (u.take 0x80).length = 0x80 := by
      rw [List.length_take]; omega
    exact parse_ne_error_length htake hp
  · intro hlen
    apply parse_wrong_length
    rw [List.length_take]; omega

theorem C10_truncation_iff_length_error_witness :
    is_encrypted [] = false ∧
      (get_userdata [] = .error .length ↔ ([] : List Nat).length < 0x80) :=
  ⟨by decide, C10_truncation_iff_length_error [] (by decide)⟩
